import Mathlib

/-!
Verification of the dependency-graph analyzer: a shallow embedding of the
Python modules create_dependency.py (the analyzer with constructor exclusion,
property/method filtering, member filtering and unreferenced-variable
tracking) and create_dependency_plantuml.py (the simpler analyzer plus the
PlantUML text generator).
-/

/-- Abstract syntax tree nodes, mirroring the subset of the Python ast module
that the analyzer inspects: Module, ClassDef, FunctionDef, Assign, AugAssign,
AnnAssign, Expr statements, Attribute, Name, Constant and Tuple. -/
inductive Node where
  | module (body : List Node)
  | classDef (nm : String) (body : List Node)
  | functionDef (nm : String) (decorator_list : List Node) (body : List Node)
  | assign (targets : List Node) (value : Node)
  | augAssign (target : Node) (value : Node)
  | annAssign (target : Node) (ann : Node) (value : Option Node)
  | exprStmt (value : Node)
  | attributeNode (value : Node) (attr : String)
  | name (id : String)
  | constant
  | tupleExpr (elts : List Node)

mutual
/-- The Python helper ast.walk: the node itself followed by all of its
descendants.  The ast.walk contract leaves the enumeration order unspecified
(CPython happens to enumerate breadth-first); we enumerate depth-first, which
yields the same collection of nodes, and on every input used below the two
orders agree on the projections the analyzer observes. -/
def walk : Node → List Node
  | .module body => .module body :: walkList body
  | .classDef nm body => .classDef nm body :: walkList body
  | .functionDef nm decorator_list body =>
      .functionDef nm decorator_list body :: (walkList decorator_list ++ walkList body)
  | .assign targets value => .assign targets value :: (walkList targets ++ walk value)
  | .augAssign target value => .augAssign target value :: (walk target ++ walk value)
  | .annAssign target ann value =>
      .annAssign target ann value :: (walk target ++ walk ann ++ walkOpt value)
  | .exprStmt value => .exprStmt value :: walk value
  | .attributeNode value attr => .attributeNode value attr :: walk value
  | .name id => [.name id]
  | .constant => [.constant]
  | .tupleExpr elts => .tupleExpr elts :: walkList elts

/-- walk, concatenated over a list of nodes. -/
def walkList : List Node → List Node
  | [] => []
  | n :: ns => walk n ++ walkList ns

/-- walk, concatenated over an optional node. -/
def walkOpt : Option Node → List Node
  | none => []
  | some n => walk n
end

/-- Python set insertion (set.add): an element already present is kept where
it is, a new element is appended; only membership and enumeration are ever
consumed downstream. -/
def setAdd (s : List String) (x : String) : List String :=
  if x ∈ s then s else s ++ [x]

/-- Python dict assignment d[k] = v: an existing key keeps its position and
has its value replaced, a new key is appended. -/
def dict_set {α : Type} (d : List (String × α)) (k : String) (v : α) :
    List (String × α) :=
  if d.any (fun p => p.1 = k) then d.map (fun p => if p.1 = k then (k, v) else p)
  else d ++ [(k, v)]

/-- Python dict lookup d.get(k). -/
def dict_get {α : Type} (d : List (String × α)) (k : String) : Option α :=
  match d with
  | [] => none
  | p :: rest => if p.1 = k then some p.2 else dict_get rest k

/-- The exception raised by the external parser (ast.parse) on malformed
source text. -/
structure ParseError where
  msg : String
deriving DecidableEq

namespace CreateDependency

/-- One iteration of the inner target loop of CodeAnalyzer._get_member_vars:
a target of the exact shape self.<attr> contributes attr. -/
def member_target_step (mv : List String) (target : Node) : List String :=
  match target with
  | .attributeNode (.name id) attr => if id = "self" then setAdd mv attr else mv
  | _ => mv

/-- One iteration of the walk loop of CodeAnalyzer._get_member_vars: an
Assign statement contributes each of its matching targets. -/
def member_vars_step (member_vars : List String) (sub_node : Node) : List String :=
  match sub_node with
  | .assign targets _ => targets.foldl member_target_step member_vars
  | _ => member_vars

/-- CodeAnalyzer._get_member_vars of create_dependency.py: walks the class
node and collects, from every Assign statement, each target of the exact
shape self.<attr>. -/
def get_member_vars (class_node : Node) : List String :=
  (walk class_node).foldl member_vars_step []

/-- One iteration of the decorator loop of CodeAnalyzer._get_properties: a
decorator that is the bare name property marks the function name nm. -/
def property_decorator_step (nm : String) (props : List String) (decorator : Node) :
    List String :=
  match decorator with
  | .name id => if id = "property" then setAdd props nm else props
  | _ => props

/-- One iteration of the walk loop of CodeAnalyzer._get_properties. -/
def properties_step (properties : List String) (sub_node : Node) : List String :=
  match sub_node with
  | .functionDef nm decorator_list _ =>
      decorator_list.foldl (property_decorator_step nm) properties
  | _ => properties

/-- CodeAnalyzer._get_properties of create_dependency.py: names of the
FunctionDef nodes under the class whose decorator list contains the bare
name property. -/
def get_properties (class_node : Node) : List String :=
  (walk class_node).foldl properties_step []

/-- One iteration of the walk loop of CodeAnalyzer._get_functions. -/
def functions_step (functions : List String) (sub_node : Node) : List String :=
  match sub_node with
  | .functionDef nm _ _ => setAdd functions nm
  | _ => functions

/-- CodeAnalyzer._get_functions of create_dependency.py: names of every
FunctionDef node under the class. -/
def get_functions (class_node : Node) : List String :=
  (walk class_node).foldl functions_step []

/-- One iteration of the attribute loop of
CodeAnalyzer._analyze_function_to_var_relations (create_dependency.py lines
77-89): an Attribute node survives unless its name is a property, a
function, or not a member variable. -/
def attr_step (properties functions member_vars : List String)
    (acc : List String) (attr_node : Node) : List String :=
  match attr_node with
  | .attributeNode _ attribute_name =>
      if attribute_name ∈ properties then acc
      else if attribute_name ∈ functions then acc
      else if attribute_name ∉ member_vars then acc
      else acc ++ [attribute_name]
  | _ => acc

/-- The inner loop of CodeAnalyzer._analyze_function_to_var_relations
(create_dependency.py lines 77-89): every Attribute node under the function,
filtered by attr_step. -/
def collect_attrs (sub_node : Node) (properties functions member_vars : List String) :
    List String :=
  (walk sub_node).foldl (attr_step properties functions member_vars) []

/-- One iteration of the walk loop of
CodeAnalyzer._analyze_function_to_var_relations: a FunctionDef not named
__init__ becomes a key mapped to its filtered attribute references. -/
def relations_step (properties functions member_vars : List String)
    (relations : List (String × List String)) (sub_node : Node) :
    List (String × List String) :=
  match sub_node with
  | .functionDef function_name decorator_list body =>
      if function_name = "__init__" then relations
      else
        dict_set relations function_name
          (collect_attrs (.functionDef function_name decorator_list body)
            properties functions member_vars)
  | _ => relations

/-- CodeAnalyzer._analyze_function_to_var_relations of create_dependency.py:
for every FunctionDef under the class except ones named __init__, record the
filtered attribute references of its subtree. -/
def analyze_function_to_var_relations (class_node : Node) (member_vars : List String) :
    List (String × List String) :=
  let properties := get_properties class_node
  let functions := get_functions class_node
  (walk class_node).foldl (relations_step properties functions member_vars) []

/-- One iteration of the loop of CodeAnalyzer._find_unreferenced_vars:
all_referenced_vars.update over one value list of the relation map. -/
def refs_step (acc : List String) (p : String × List String) : List String :=
  p.2.foldl setAdd acc

/-- CodeAnalyzer._find_unreferenced_vars of create_dependency.py: the member
variables that occur in no value list of the relation map. -/
def find_unreferenced_vars (relations : List (String × List String))
    (member_vars : List String) : List String :=
  let all_referenced_vars := relations.foldl refs_step []
  member_vars.filter (fun v => v ∉ all_referenced_vars)

/-- CodeAnalyzer._analyze_class_node of create_dependency.py. -/
def analyze_class_node (class_node : Node) :
    List (String × List String) × List String :=
  let member_vars := get_member_vars class_node
  let relations := analyze_function_to_var_relations class_node member_vars
  let unreferenced_vars := find_unreferenced_vars relations member_vars
  (relations, unreferenced_vars)

/-- One iteration of the walk loop of CodeAnalyzer.analyze_code of
create_dependency.py: a ClassDef node contributes one analyzed entry. -/
def class_step (class_relations : List (String × (List (String × List String) × List String)))
    (node : Node) : List (String × (List (String × List String) × List String)) :=
  match node with
  | .classDef class_name body =>
      dict_set class_relations class_name (analyze_class_node (.classDef class_name body))
  | _ => class_relations

/-- The tree-walking part of CodeAnalyzer.analyze_code of
create_dependency.py: one entry per ClassDef node found anywhere in the
tree. -/
def analyze_tree (tree : Node) :
    List (String × (List (String × List String) × List String)) :=
  (walk tree).foldl class_step []

/-- CodeAnalyzer.analyze_code of create_dependency.py: parse the source text
with the external parser (ast.parse, passed explicitly) and analyze the
resulting tree; the code installs no handler, so a parse failure propagates
unmodified.  Reading the file from disk is the external collaborator
_CodeReader and is modelled by passing the source text directly. -/
def analyze_code (parse : String → Except ParseError Node) (code : String) :
    Except ParseError (List (String × (List (String × List String) × List String))) :=
  match parse code with
  | .error e => .error e
  | .ok tree => .ok (analyze_tree tree)

end CreateDependency

namespace Plantuml

/-- CodeAnalyzer._get_properties of create_dependency_plantuml.py (textually
the same collection as in create_dependency.py). -/
def get_properties (class_node : Node) : List String :=
  (walk class_node).foldl CreateDependency.properties_step []

/-- One iteration of the attribute loop of CodeAnalyzer._analyze_class_node
of create_dependency_plantuml.py (lines 55-63): an Attribute node survives
unless its name is a property. -/
def attr_step (properties : List String) (acc : List String) (attr_node : Node) :
    List String :=
  match attr_node with
  | .attributeNode _ attribute_name =>
      if attribute_name ∈ properties then acc else acc ++ [attribute_name]
  | _ => acc

/-- The inner loop of CodeAnalyzer._analyze_class_node of
create_dependency_plantuml.py (lines 55-63): every Attribute node under the
function, discarding only property names. -/
def collect_attrs (sub_node : Node) (properties : List String) : List String :=
  (walk sub_node).foldl (attr_step properties) []

/-- One iteration of the walk loop of CodeAnalyzer._analyze_class_node of
create_dependency_plantuml.py: every FunctionDef becomes a key. -/
def relations_step (properties : List String)
    (relations : List (String × List String)) (sub_node : Node) :
    List (String × List String) :=
  match sub_node with
  | .functionDef function_name decorator_list body =>
      dict_set relations function_name
        (collect_attrs (.functionDef function_name decorator_list body) properties)
  | _ => relations

/-- CodeAnalyzer._analyze_class_node of create_dependency_plantuml.py: every
FunctionDef under the class (the constructor included) is a key. -/
def analyze_class_node (class_node : Node) : List (String × List String) :=
  let properties := get_properties class_node
  (walk class_node).foldl (relations_step properties) []

/-- One iteration of the walk loop of CodeAnalyzer.analyze_code of
create_dependency_plantuml.py. -/
def class_step (class_relations : List (String × List (String × List String)))
    (node : Node) : List (String × List (String × List String)) :=
  match node with
  | .classDef class_name body =>
      dict_set class_relations class_name (analyze_class_node (.classDef class_name body))
  | _ => class_relations

/-- The tree-walking part of CodeAnalyzer.analyze_code of
create_dependency_plantuml.py. -/
def analyze_tree (tree : Node) : List (String × List (String × List String)) :=
  (walk tree).foldl class_step []

/-- CodeAnalyzer.analyze_code of create_dependency_plantuml.py, with the
external parser passed explicitly; the code installs no handler, so a parse
failure propagates unmodified. -/
def analyze_code (parse : String → Except ParseError Node) (code : String) :
    Except ParseError (List (String × List (String × List String))) :=
  match parse code with
  | .error e => .error e
  | .ok tree => .ok (analyze_tree tree)

/-- The attribute set built at the top of PlantUMLGenerator.generate:
attributes.update(attribute_list) over every value list, in insertion
order. -/
def collect_attributes (relations : List (String × List String)) : List String :=
  relations.foldl CreateDependency.refs_step []

/-- PlantUMLGenerator._generate_attribute_section. -/
def generate_attribute_section (attributes : List String) : String :=
  attributes.foldl (fun attribute_section a => attribute_section ++ "() " ++ a ++ "\n") ""

/-- PlantUMLGenerator._generate_function_section. -/
def generate_function_section (relations : List (String × List String)) : String :=
  relations.foldl (fun function_section p => function_section ++ "entity f_" ++ p.1 ++ "\n") ""

/-- PlantUMLGenerator._generate_relations_section. -/
def generate_relations_section (relations : List (String × List String)) : String :=
  relations.foldl
    (fun relations_section p =>
      p.2.foldl (fun s a => s ++ "f_" ++ p.1 ++ " --> " ++ a ++ "\n") relations_section)
    ""

/-- PlantUMLGenerator.generate.  The Python code iterates the hash set named
attributes; a hash set's enumeration order is an implementation incident (it
varies with the interpreter's string-hash seed), so the enumeration is made
explicit as the argument set_order, which receives the set's elements listed
in insertion order and returns them in the order the iteration yields
them. -/
def generate (set_order : List String → List String)
    (class_relations : List (String × List (String × List String))) : String :=
  let plantuml_code := "@startuml\n"
  let plantuml_code := class_relations.foldl
    (fun code p =>
      let class_name := p.1
      let relations := p.2
      let attributes := set_order (collect_attributes relations)
      code ++ "class " ++ class_name ++ " \x7b\n"
        ++ generate_attribute_section attributes
        ++ generate_function_section relations
        ++ generate_relations_section relations
        ++ "\x7d\n")
    plantuml_code
  plantuml_code ++ "@enduml\n"

/-- A valid enumeration of a hash set: it yields exactly the stored elements,
each once, in some order. -/
def IsSetEnum (f : List String → List String) : Prop :=
  ∀ xs : List String, List.Perm (f xs) xs

end Plantuml

/-- Decides whether a node is a ClassDef. -/
def isClassDefNode : Node → Bool
  | .classDef _ _ => true
  | _ => false

/-- Decides whether a node is a FunctionDef named fname. -/
def isFunctionDefNamed (fname : String) : Node → Bool
  | .functionDef nm _ _ => nm == fname
  | _ => false

/-- Decides whether an expression is the exact receiver-attribute pattern
self.<x>. -/
def isSelfTarget (x : String) : Node → Bool
  | .attributeNode (.name id) attr => id == "self" && attr == x
  | _ => false

/-- Decides whether a node is a plain Assign statement having self.<x> among
its (top-level) targets. -/
def isSelfAssignTargetIn (x : String) : Node → Bool
  | .assign targets _ => targets.any (isSelfTarget x)
  | _ => false

/-- The spec's concrete scenario: a constructor assigning self.a and self.b, a
method bar reading self.a, and a method baz reading self.b and self.c where c
is never assigned. -/
def scenarioClass : Node :=
  .classDef "Foo"
    [.functionDef "__init__" []
       [.assign [.attributeNode (.name "self") "a"] .constant,
        .assign [.attributeNode (.name "self") "b"] .constant],
     .functionDef "bar" [] [.exprStmt (.attributeNode (.name "self") "a")],
     .functionDef "baz" []
       [.exprStmt (.attributeNode (.name "self") "b"),
        .exprStmt (.attributeNode (.name "self") "c")]]

/-- A module holding only the scenario class. -/
def scenarioModule : Node :=
  .module [scenarioClass]

/-- A class whose method foo contains a nested function helper. -/
def nestedFuncClass : Node :=
  .classDef "A"
    [.functionDef "foo" []
       [.functionDef "helper" [] [.exprStmt (.attributeNode (.name "self") "a")]]]

/-- A class whose constructor assigns self.x and self.y through a single
tuple-shaped assignment target. -/
def tupleAssignClass : Node :=
  .classDef "B"
    [.functionDef "__init__" []
       [.assign [.tupleExpr [.attributeNode (.name "self") "x",
                             .attributeNode (.name "self") "y"]] .constant]]

/-- A class whose constructor assigns self.p and self.q through one chained
assignment statement with two targets. -/
def chainedAssignClass : Node :=
  .classDef "D"
    [.functionDef "__init__" []
       [.assign [.attributeNode (.name "self") "p",
                 .attributeNode (.name "self") "q"] .constant]]

/-- A class with a property-decorated method value and a method reader whose
body contains the attribute access self.value. -/
def propClass : Node :=
  .classDef "P"
    [.functionDef "value" [.name "property"] [.exprStmt .constant],
     .functionDef "reader" [] [.exprStmt (.attributeNode (.name "self") "value")]]

/-- A class whose attribute w is written only through an augmented assignment
and read by the method m. -/
def augClass : Node :=
  .classDef "E"
    [.functionDef "__init__" []
       [.augAssign (.attributeNode (.name "self") "w") .constant],
     .functionDef "m" [] [.exprStmt (.attributeNode (.name "self") "w")]]

/-- A class assigning self.x in the constructor with a method m that never
reads it. -/
def unrefClass : Node :=
  .classDef "G"
    [.functionDef "__init__" []
       [.assign [.attributeNode (.name "self") "x"] .constant],
     .functionDef "m" [] [.exprStmt .constant]]

/-- A module with a top-level function and no class definitions. -/
def noClassModule : Node :=
  .module [.functionDef "f" [] [.exprStmt (.attributeNode (.name "self") "a")]]

/-- A one-class relation map whose method f references the attributes a and
b, used to exhibit the set-enumeration dependence of the text generator. -/
def demoRelations : List (String × List (String × List String)) :=
  [("C", [("f", ["a", "b"])])]

/-- A parser that rejects every input, standing in for ast.parse on a
syntactically invalid source. -/
def failingParse : String → Except ParseError Node :=
  fun _ => .error ⟨"invalid syntax"⟩

theorem mem_setAdd (s : List String) (x y : String) :
    x ∈ setAdd s y ↔ x ∈ s ∨ x = y := by
  by_cases h : y ∈ s
  · simp only [setAdd, if_pos h]
    constructor
    · exact Or.inl
    · rintro (hx | rfl)
      · exact hx
      · exact h
  · simp [setAdd, if_neg h]

theorem mem_foldl_setAdd (l : List String) (acc : List String) (x : String) :
    x ∈ l.foldl setAdd acc ↔ x ∈ acc ∨ x ∈ l := by
  induction l generalizing acc with
  | nil => simp
  | cons y ys ih =>
    simp only [List.foldl_cons, ih, mem_setAdd, List.mem_cons]
    tauto

theorem foldl_invariant {α β : Type} (P : β → Prop) (step : β → α → β)
    (l : List α) (b : β) (hb : P b)
    (h : ∀ acc a, a ∈ l → P acc → P (step acc a)) :
    P (l.foldl step b) := by
  induction l generalizing b with
  | nil => exact hb
  | cons n ns ih =>
    exact ih _ (h b n (by simp) hb) (fun acc a ha => h acc a (by simp [ha]))

theorem map_set_id {α : Type} (d : List (String × α)) (k : String) (v : α)
    (h : d.any (fun p => p.1 = k) = false) :
    (d.map fun p => if p.1 = k then (k, v) else p) = d := by
  induction d with
  | nil => rfl
  | cons p rest ih =>
    simp only [List.any_cons, Bool.or_eq_false_iff, decide_eq_false_iff_not] at h
    simp only [List.map_cons, if_neg h.1, ih h.2]

theorem dict_get_map_set {α : Type} (d : List (String × α)) (k k' : String) (v : α)
    (hany : d.any (fun p => p.1 = k) = true) :
    dict_get (d.map fun p => if p.1 = k then (k, v) else p) k' =
      if k' = k then some v else dict_get d k' := by
  induction d with
  | nil => simp at hany
  | cons p rest ih =>
    by_cases hp : p.1 = k
    · by_cases hk : k' = k
      · subst hk
        simp [dict_get, hp]
      · have hkk' : ¬(k = k') := fun h => hk h.symm
        have hpk' : ¬(p.1 = k') := fun h => hk (h.symm.trans hp)
        simp only [List.map_cons, if_pos hp, dict_get, if_neg hkk', if_neg hk, if_neg hpk']
        by_cases hrest : rest.any (fun q => q.1 = k)
        · rw [ih hrest, if_neg hk]
        · rw [map_set_id rest k v (Bool.eq_false_iff.mpr hrest)]
    · have hrest : rest.any (fun q => q.1 = k) = true := by
        simp only [List.any_cons, Bool.or_eq_true, decide_eq_true_eq] at hany
        tauto
      by_cases hpk' : p.1 = k'
      · have hk : ¬(k' = k) := fun h => hp (hpk'.trans h)
        simp [dict_get, if_neg hp, hpk', hk]
      · simp only [List.map_cons, if_neg hp, dict_get, if_neg hpk', ih hrest]

theorem dict_get_append_not_mem {α : Type} (d : List (String × α)) (k : String)
    (v : α) (h : d.any (fun p => p.1 = k) = false) :
    dict_get (d ++ [(k, v)]) k = some v := by
  induction d with
  | nil => simp [dict_get]
  | cons p rest ih =>
    simp only [List.any_cons, Bool.or_eq_false_iff, decide_eq_false_iff_not] at h
    simp only [List.cons_append, dict_get, if_neg h.1]
    exact ih h.2

theorem dict_get_append_ne {α : Type} (d : List (String × α)) (k k' : String)
    (v : α) (hk : ¬(k' = k)) :
    dict_get (d ++ [(k, v)]) k' = dict_get d k' := by
  induction d with
  | nil =>
    simp only [List.nil_append, dict_get]
    rw [if_neg (fun h : k = k' => hk h.symm)]
  | cons p rest ih =>
    simp only [List.cons_append, dict_get]
    by_cases hpk' : p.1 = k'
    · simp [hpk']
    · rw [if_neg hpk', if_neg hpk']
      exact ih

theorem dict_get_dict_set {α : Type} (d : List (String × α)) (k k' : String) (v : α) :
    dict_get (dict_set d k v) k' = if k' = k then some v else dict_get d k' := by
  by_cases hany : d.any (fun p => p.1 = k)
  · simp only [dict_set, if_pos hany]
    exact dict_get_map_set d k k' v hany
  · simp only [dict_set, if_neg hany]
    by_cases hk : k' = k
    · subst hk
      rw [if_pos rfl]
      exact dict_get_append_not_mem d k' v (Bool.eq_false_iff.mpr hany)
    · rw [if_neg hk]
      exact dict_get_append_ne d k k' v hk

theorem dict_get_mem {α : Type} {d : List (String × α)} {k : String} {v : α}
    (h : dict_get d k = some v) : (k, v) ∈ d := by
  induction d with
  | nil => simp [dict_get] at h
  | cons p rest ih =>
    simp only [dict_get] at h
    by_cases hp : p.1 = k
    · rw [if_pos hp] at h
      injection h with h2
      obtain ⟨p1, p2⟩ := p
      simp only at hp h2
      subst hp
      subst h2
      exact List.mem_cons_self _ _
    · rw [if_neg hp] at h
      exact List.mem_cons_of_mem _ (ih h)

theorem mem_member_target_step (mv : List String) (t : Node) (x : String) :
    x ∈ CreateDependency.member_target_step mv t ↔ x ∈ mv ∨ isSelfTarget x t = true := by
  cases t
  case attributeNode value attr =>
    cases value
    case name id =>
      simp only [CreateDependency.member_target_step, isSelfTarget]
      by_cases hid : id = "self"
      · subst hid
        rw [if_pos rfl, mem_setAdd]
        simp only [beq_self_eq_true, Bool.true_and, beq_iff_eq]
        exact or_congr Iff.rfl eq_comm
      · rw [if_neg hid]
        simp [hid]
    all_goals simp [CreateDependency.member_target_step, isSelfTarget]
  all_goals simp [CreateDependency.member_target_step, isSelfTarget]

theorem mem_member_vars_step (mv : List String) (n : Node) (x : String) :
    x ∈ CreateDependency.member_vars_step mv n ↔
      x ∈ mv ∨ isSelfAssignTargetIn x n = true := by
  cases n
  case assign targets value =>
    simp only [CreateDependency.member_vars_step, isSelfAssignTargetIn]
    induction targets generalizing mv with
    | nil => simp
    | cons t ts ih =>
      rw [List.foldl_cons, ih (CreateDependency.member_target_step mv t),
        mem_member_target_step]
      simp only [List.any_cons, Bool.or_eq_true]
      tauto
  all_goals simp [CreateDependency.member_vars_step, isSelfAssignTargetIn]

theorem mem_foldl_member_vars_step (l : List Node) (acc : List String) (x : String) :
    x ∈ l.foldl CreateDependency.member_vars_step acc ↔
      x ∈ acc ∨ ∃ n ∈ l, isSelfAssignTargetIn x n = true := by
  induction l generalizing acc with
  | nil => simp
  | cons n ns ih =>
    rw [List.foldl_cons, ih, mem_member_vars_step]
    simp only [List.exists_mem_cons_iff]
    tauto

theorem mem_get_member_vars_iff (c : Node) (x : String) :
    x ∈ CreateDependency.get_member_vars c ↔
      ∃ n ∈ walk c, isSelfAssignTargetIn x n = true := by
  unfold CreateDependency.get_member_vars
  rw [mem_foldl_member_vars_step]
  simp

theorem mem_foldl_refs_step (relations : List (String × List String))
    (acc : List String) (x : String) :
    x ∈ relations.foldl CreateDependency.refs_step acc ↔
      x ∈ acc ∨ ∃ p ∈ relations, x ∈ p.2 := by
  induction relations generalizing acc with
  | nil => simp
  | cons p ps ih =>
    rw [List.foldl_cons, ih]
    unfold CreateDependency.refs_step
    rw [mem_foldl_setAdd]
    simp only [List.exists_mem_cons_iff]
    tauto

theorem mem_collect_attrs {x : String} {n : Node}
    {properties functions member_vars : List String}
    (h : x ∈ CreateDependency.collect_attrs n properties functions member_vars) :
    x ∉ properties ∧ x ∉ functions ∧ x ∈ member_vars := by
  unfold CreateDependency.collect_attrs at h
  revert h
  refine foldl_invariant
    (P := fun acc => x ∈ acc → x ∉ properties ∧ x ∉ functions ∧ x ∈ member_vars)
    _ _ _ (by simp) ?_
  intro acc a ha hacc hx
  clear ha
  revert hx
  cases a
  case attributeNode value attr =>
    intro hx
    simp only [CreateDependency.attr_step] at hx
    by_cases h1 : attr ∈ properties
    · rw [if_pos h1] at hx
      exact hacc hx
    · rw [if_neg h1] at hx
      by_cases h2 : attr ∈ functions
      · rw [if_pos h2] at hx
        exact hacc hx
      · rw [if_neg h2] at hx
        by_cases h3 : attr ∈ member_vars
        · rw [if_neg (not_not_intro h3)] at hx
          rcases List.mem_append.mp hx with hx' | hx'
          · exact hacc hx'
          · rcases List.mem_singleton.mp hx' with rfl
            exact ⟨h1, h2, h3⟩
        · rw [if_pos h3] at hx
          exact hacc hx
  all_goals exact fun hx => hacc hx

theorem mem_collect_attrs_plantuml {x : String} {n : Node} {properties : List String}
    (h : x ∈ Plantuml.collect_attrs n properties) : x ∉ properties := by
  unfold Plantuml.collect_attrs at h
  revert h
  refine foldl_invariant (P := fun acc => x ∈ acc → x ∉ properties) _ _ _ (by simp) ?_
  intro acc a ha hacc hx
  clear ha
  revert hx
  cases a
  case attributeNode value attr =>
    intro hx
    simp only [Plantuml.attr_step] at hx
    by_cases h1 : attr ∈ properties
    · rw [if_pos h1] at hx
      exact hacc hx
    · rw [if_neg h1] at hx
      rcases List.mem_append.mp hx with hx' | hx'
      · exact hacc hx'
      · rcases List.mem_singleton.mp hx' with rfl
        exact h1
  all_goals exact fun hx => hacc hx

theorem init_not_key (c : Node) (mv : List String) :
    dict_get (CreateDependency.analyze_function_to_var_relations c mv) "__init__" = none := by
  simp only [CreateDependency.analyze_function_to_var_relations]
  refine foldl_invariant (P := fun d => dict_get d "__init__" = none) _ _ _ rfl ?_
  intro acc a ha hacc
  clear ha
  cases a
  case functionDef g decs body =>
    simp only [CreateDependency.relations_step]
    by_cases hg : g = "__init__"
    · rw [if_pos hg]
      exact hacc
    · rw [if_neg hg, dict_get_dict_set, if_neg (fun h => hg h.symm)]
      exact hacc
  all_goals exact hacc

theorem relations_values (c : Node) (mv : List String) :
    ∀ f l, dict_get (CreateDependency.analyze_function_to_var_relations c mv) f = some l →
      ∃ n : Node, l = CreateDependency.collect_attrs n
        (CreateDependency.get_properties c) (CreateDependency.get_functions c) mv := by
  simp only [CreateDependency.analyze_function_to_var_relations]
  refine foldl_invariant
    (P := fun d => ∀ f l, dict_get d f = some l →
      ∃ n : Node, l = CreateDependency.collect_attrs n
        (CreateDependency.get_properties c) (CreateDependency.get_functions c) mv)
    _ _ _ (by intro f l h; simp [dict_get] at h) ?_
  intro acc a ha hacc f l
  clear ha
  cases a
  case functionDef g decs body =>
    intro h
    simp only [CreateDependency.relations_step] at h
    by_cases hg : g = "__init__"
    · rw [if_pos hg] at h
      exact hacc f l h
    · rw [if_neg hg, dict_get_dict_set] at h
      by_cases hf : f = g
      · rw [if_pos hf] at h
        injection h with h'
        exact ⟨_, h'.symm⟩
      · rw [if_neg hf] at h
        exact hacc f l h
  all_goals exact fun h => hacc f l h

theorem plantuml_relations_values (c : Node) :
    ∀ f l, dict_get (Plantuml.analyze_class_node c) f = some l →
      ∃ n : Node, l = Plantuml.collect_attrs n (Plantuml.get_properties c) := by
  simp only [Plantuml.analyze_class_node]
  refine foldl_invariant
    (P := fun d => ∀ f l, dict_get d f = some l →
      ∃ n : Node, l = Plantuml.collect_attrs n (Plantuml.get_properties c))
    _ _ _ (by intro f l h; simp [dict_get] at h) ?_
  intro acc a ha hacc f l
  clear ha
  cases a
  case functionDef g decs body =>
    intro h
    simp only [Plantuml.relations_step] at h
    rw [dict_get_dict_set] at h
    by_cases hf : f = g
    · rw [if_pos hf] at h
      injection h with h'
      exact ⟨_, h'.symm⟩
    · rw [if_neg hf] at h
      exact hacc f l h
  all_goals exact fun h => hacc f l h

theorem analyze_tree_values (t : Node) :
    ∀ cname pr, dict_get (CreateDependency.analyze_tree t) cname = some pr →
      ∃ body, pr = CreateDependency.analyze_class_node (.classDef cname body) := by
  unfold CreateDependency.analyze_tree
  refine foldl_invariant
    (P := fun d => ∀ cname pr, dict_get d cname = some pr →
      ∃ body, pr = CreateDependency.analyze_class_node (.classDef cname body))
    _ _ _ (by intro cname pr h; simp [dict_get] at h) ?_
  intro acc a ha hacc cname pr
  clear ha
  cases a
  case classDef nm body =>
    intro h
    simp only [CreateDependency.class_step] at h
    rw [dict_get_dict_set] at h
    by_cases hc : cname = nm
    · rw [if_pos hc] at h
      injection h with h'
      subst hc
      exact ⟨body, h'.symm⟩
    · rw [if_neg hc] at h
      exact hacc cname pr h
  all_goals exact fun h => hacc cname pr h

theorem relations_step_key (properties functions member_vars : List String)
    (acc : List (String × List String)) (a : Node) (fname : String) :
    (dict_get (CreateDependency.relations_step properties functions member_vars acc a)
        fname ≠ none) ↔
      (dict_get acc fname ≠ none ∨
        (fname ≠ "__init__" ∧ isFunctionDefNamed fname a = true)) := by
  cases a
  case functionDef g decs body =>
    simp only [CreateDependency.relations_step, isFunctionDefNamed]
    by_cases hg : g = "__init__"
    · subst hg
      rw [if_pos rfl]
      constructor
      · exact Or.inl
      · rintro (h | ⟨hne, hbeq⟩)
        · exact h
        · exact absurd (beq_iff_eq.mp hbeq).symm hne
    · rw [if_neg hg, dict_get_dict_set]
      by_cases hf : fname = g
      · subst hf
        rw [if_pos rfl]
        simp [hg]
      · rw [if_neg hf]
        simp [beq_iff_eq, show ¬(g = fname) from fun hh => hf hh.symm]
  all_goals simp [CreateDependency.relations_step, isFunctionDefNamed]

theorem relations_key_aux (properties functions member_vars : List String) (fname : String) :
    ∀ (l : List Node) (acc : List (String × List String)),
      dict_get (l.foldl (CreateDependency.relations_step properties functions member_vars) acc)
          fname ≠ none ↔
        dict_get acc fname ≠ none ∨
          (fname ≠ "__init__" ∧ ∃ n ∈ l, isFunctionDefNamed fname n = true) := by
  intro l
  induction l with
  | nil => simp
  | cons a as ih =>
    intro acc
    rw [List.foldl_cons, ih, relations_step_key]
    simp only [List.exists_mem_cons_iff]
    tauto

/-- C1 (counterexample): in create_dependency.py, the spec's concrete
scenario does not map baz to the list containing b and c: the membership
filter at line 86 drops c, which is never assigned to self, so baz maps to
the singleton list b. -/
theorem nonmember_reference_counterexample :
    dict_get (CreateDependency.analyze_class_node scenarioClass).1 "baz" = some ["b"] ∧
    dict_get (CreateDependency.analyze_class_node scenarioClass).1 "baz" ≠ some ["b", "c"] :=
  ⟨rfl, by decide⟩

/-- C1 (amended): the canonical analyzer of create_dependency.py filters
attribute references against the member-variable set, so in the spec's
scenario bar maps to the singleton a, baz maps to the singleton b (c, not a
member variable, is dropped), and the unreferenced set is empty; the simpler
analyzer of create_dependency_plantuml.py, which lacks the membership
filter, is the variant that reports baz as referencing b and c. -/
theorem scenario_filters_nonmember_references :
    dict_get (CreateDependency.analyze_class_node scenarioClass).1 "bar" = some ["a"] ∧
    dict_get (CreateDependency.analyze_class_node scenarioClass).1 "baz" = some ["b"] ∧
    (CreateDependency.analyze_class_node scenarioClass).2 = [] ∧
    dict_get (Plantuml.analyze_class_node scenarioClass) "baz" = some ["b", "c"] :=
  ⟨rfl, rfl, rfl, rfl⟩

/-- C2: the textual rendering is not a function of the relation map alone:
PlantUMLGenerator.generate iterates a hash set of attribute names, and two
valid enumerations of that same set (insertion order and its reverse)
produce different output texts for the same relation map, so byte-identical
output across interpreter runs is not guaranteed. -/
theorem generate_depends_on_set_order :
    Plantuml.IsSetEnum (fun xs => xs) ∧
    Plantuml.IsSetEnum (fun xs => xs.reverse) ∧
    Plantuml.generate (fun xs => xs) demoRelations ≠
      Plantuml.generate (fun xs => xs.reverse) demoRelations :=
  ⟨fun xs => List.Perm.refl xs, fun xs => List.reverse_perm xs, by decide⟩

/-- C3: every unreferenced attribute of a class is a member variable of that
class and occurs in no value list of the class's function-to-attributes
map. -/
theorem unreferenced_subset_and_disjoint (c : Node) (x : String)
    (hx : x ∈ (CreateDependency.analyze_class_node c).2) :
    x ∈ CreateDependency.get_member_vars c ∧
    ∀ f l, dict_get (CreateDependency.analyze_class_node c).1 f = some l → x ∉ l := by
  have hx' := hx
  simp only [CreateDependency.analyze_class_node,
    CreateDependency.find_unreferenced_vars] at hx'
  rw [List.mem_filter] at hx'
  obtain ⟨hmem, hdec⟩ := hx'
  have hnotref : x ∉ (CreateDependency.analyze_function_to_var_relations c
      (CreateDependency.get_member_vars c)).foldl CreateDependency.refs_step [] :=
    of_decide_eq_true hdec
  refine ⟨hmem, ?_⟩
  intro f l hget hxl
  apply hnotref
  rw [mem_foldl_refs_step]
  right
  have hget' : dict_get (CreateDependency.analyze_function_to_var_relations c
      (CreateDependency.get_member_vars c)) f = some l := by
    simpa only [CreateDependency.analyze_class_node] using hget
  exact ⟨(f, l), dict_get_mem hget', hxl⟩

/-- C3 witness: the class assigning self.x and never reading it has x
unreferenced, x a member variable, and x absent from the value list of its
only method. -/
theorem unreferenced_subset_and_disjoint_witness :
    "x" ∈ (CreateDependency.analyze_class_node unrefClass).2 ∧
    "x" ∈ CreateDependency.get_member_vars unrefClass ∧
    "x" ∉ ([] : List String) :=
  ⟨by decide,
   (unreferenced_subset_and_disjoint unrefClass "x" (by decide)).1,
   (unreferenced_subset_and_disjoint unrefClass "x" (by decide)).2 "m" [] rfl⟩

/-- C4: for every analyzed tree and every class entry of the result mapping,
the constructor name is never a key of that entry's function-to-attributes
map. -/
theorem constructor_never_key (tree : Node) (cname : String)
    (rel : List (String × List String)) (unref : List String)
    (h : dict_get (CreateDependency.analyze_tree tree) cname = some (rel, unref)) :
    dict_get rel "__init__" = none := by
  obtain ⟨body, hb⟩ := analyze_tree_values tree cname (rel, unref) h
  have hrel : rel = (CreateDependency.analyze_class_node (.classDef cname body)).1 := by
    rw [← hb]
  rw [hrel]
  simp only [CreateDependency.analyze_class_node]
  exact init_not_key _ _

/-- C4 witness: the scenario module's class Foo has a constructor, yet its
relation map has no key named after the constructor. -/
theorem constructor_never_key_witness :
    dict_get (CreateDependency.analyze_tree scenarioModule) "Foo" =
      some ([("bar", ["a"]), ("baz", ["b"])], []) ∧
    dict_get [("bar", ["a"]), ("baz", ["b"])] "__init__" = none :=
  ⟨rfl, constructor_never_key scenarioModule "Foo" _ _ rfl⟩

/-- C5: a property-decorated method name never occurs in any value list of a
class's function-to-attributes map, in either analyzer variant, even when a
method body contains an attribute access with that name. -/
theorem property_never_referenced (c : Node) (p : String)
    (hp : p ∈ CreateDependency.get_properties c) :
    (∀ f l, dict_get (CreateDependency.analyze_class_node c).1 f = some l → p ∉ l) ∧
    (∀ f l, dict_get (Plantuml.analyze_class_node c) f = some l → p ∉ l) := by
  constructor
  · intro f l h hpl
    simp only [CreateDependency.analyze_class_node] at h
    obtain ⟨n, rfl⟩ := relations_values c _ f l h
    exact (mem_collect_attrs hpl).1 hp
  · intro f l h hpl
    obtain ⟨n, rfl⟩ := plantuml_relations_values c f l h
    exact (mem_collect_attrs_plantuml hpl) hp

/-- C5 witness: the class with the property value and a method reader that
accesses self.value keeps value out of reader's reference list. -/
theorem property_never_referenced_witness :
    "value" ∈ CreateDependency.get_properties propClass ∧
    "value" ∉ ([] : List String) :=
  ⟨by decide,
   (property_never_referenced propClass "value" (by decide)).1 "reader" [] rfl⟩

/-- C6 (counterexample): a function nested inside a method body does
contribute its own key: ast.walk over the class yields the nested
FunctionDef, so the class with method foo containing nested helper maps both
foo and helper. -/
theorem nested_function_key_counterexample :
    dict_get (CreateDependency.analyze_class_node nestedFuncClass).1 "helper" = some [] ∧
    dict_get (CreateDependency.analyze_class_node nestedFuncClass).1 "helper" ≠ none :=
  ⟨rfl, by decide⟩

/-- C6 (amended): the key set of a class's function-to-attributes map is
exactly the set of names of FunctionDef nodes anywhere under the class node
(nested functions and nested-class methods included), minus the constructor
name. -/
theorem relations_keys_characterization (c : Node) (fname : String) :
    dict_get (CreateDependency.analyze_class_node c).1 fname ≠ none ↔
      fname ≠ "__init__" ∧ ∃ n ∈ walk c, isFunctionDefNamed fname n = true := by
  simp only [CreateDependency.analyze_class_node,
    CreateDependency.analyze_function_to_var_relations]
  rw [relations_key_aux]
  simp [dict_get]

/-- C7 (counterexample): a tuple-shaped assignment target is not decomposed:
the class assigning (self.x, self.y) in one statement gets an empty
member-variable set, because the Tuple target itself fails the
receiver-attribute pattern. -/
theorem tuple_target_counterexample :
    CreateDependency.get_member_vars tupleAssignClass = [] ∧
    "x" ∉ CreateDependency.get_member_vars tupleAssignClass :=
  ⟨rfl, by decide⟩

/-- C7 (amended): each top-level target of an Assign statement is evaluated
independently against the receiver-attribute pattern, so chained targets of
the shape self.<name> are each recorded, while a self.<name> nested inside a
tuple-shaped target is not recorded. -/
theorem member_vars_characterization :
    (∀ (c : Node) (x : String),
      x ∈ CreateDependency.get_member_vars c ↔
        ∃ n ∈ walk c, isSelfAssignTargetIn x n = true) ∧
    CreateDependency.get_member_vars chainedAssignClass = ["p", "q"] ∧
    CreateDependency.get_member_vars tupleAssignClass = [] :=
  ⟨mem_get_member_vars_iff, rfl, rfl⟩

/-- C8: a tree containing no ClassDef node yields an empty result mapping
from both analyzers, and the text generator applied to that empty mapping
emits only the start and end markers. -/
theorem no_classes_empty_output (tree : Node) (set_order : List String → List String)
    (h : ∀ n ∈ walk tree, isClassDefNode n = false) :
    CreateDependency.analyze_tree tree = [] ∧
    Plantuml.analyze_tree tree = [] ∧
    Plantuml.generate set_order (Plantuml.analyze_tree tree) = "@startuml\n@enduml\n" := by
  have h1 : CreateDependency.analyze_tree tree = [] := by
    unfold CreateDependency.analyze_tree
    refine foldl_invariant (P := fun d => d = []) _ _ _ rfl ?_
    intro acc a ha hacc
    subst hacc
    revert ha
    cases a
    case classDef nm body =>
      intro ha
      have hc := h _ ha
      simp [isClassDefNode] at hc
    all_goals exact fun ha => rfl
  have h2 : Plantuml.analyze_tree tree = [] := by
    unfold Plantuml.analyze_tree
    refine foldl_invariant (P := fun d => d = []) _ _ _ rfl ?_
    intro acc a ha hacc
    subst hacc
    revert ha
    cases a
    case classDef nm body =>
      intro ha
      have hc := h _ ha
      simp [isClassDefNode] at hc
    all_goals exact fun ha => rfl
  refine ⟨h1, h2, ?_⟩
  rw [h2]
  rfl

/-- C8 witness: a module with one top-level function and no class yields the
wrapper-only output. -/
theorem no_classes_empty_output_witness :
    (∀ n ∈ walk noClassModule, isClassDefNode n = false) ∧
    Plantuml.generate (fun xs => xs) (Plantuml.analyze_tree noClassModule) =
      "@startuml\n@enduml\n" :=
  ⟨by decide,
   (no_classes_empty_output noClassModule (fun xs => xs) (by decide)).2.2⟩

/-- C9: when the external parser rejects the source text, both analyzers
propagate that exact parse error unmodified and produce no partial result
mapping. -/
theorem parse_error_propagates (parse : String → Except ParseError Node)
    (code : String) (e : ParseError) (h : parse code = .error e) :
    CreateDependency.analyze_code parse code = .error e ∧
    Plantuml.analyze_code parse code = .error e := by
  constructor
  · simp [CreateDependency.analyze_code, h]
  · simp [Plantuml.analyze_code, h]

/-- C9 witness: a parser rejecting every input makes analyze_code fail with
the same error. -/
theorem parse_error_propagates_witness :
    failingParse "def f(:" = .error ⟨"invalid syntax"⟩ ∧
    CreateDependency.analyze_code failingParse "def f(:" = .error ⟨"invalid syntax"⟩ :=
  ⟨rfl, (parse_error_propagates failingParse "def f(:" ⟨"invalid syntax"⟩ rfl).1⟩

/-- C10: an attribute name that never occurs as a plain-assignment self
target anywhere under the class (for instance one written only through
augmented or annotated assignment) is absent from the member-variable set,
from the unreferenced set, and from every method's attribute-reference
list. -/
theorem nonassigned_attribute_invisible (c : Node) (x : String)
    (h : ¬ ∃ n ∈ walk c, isSelfAssignTargetIn x n = true) :
    x ∉ CreateDependency.get_member_vars c ∧
    x ∉ (CreateDependency.analyze_class_node c).2 ∧
    ∀ f l, dict_get (CreateDependency.analyze_class_node c).1 f = some l → x ∉ l := by
  have hmv : x ∉ CreateDependency.get_member_vars c :=
    fun hx => h ((mem_get_member_vars_iff c x).mp hx)
  refine ⟨hmv, ?_, ?_⟩
  · intro hx
    simp only [CreateDependency.analyze_class_node,
      CreateDependency.find_unreferenced_vars] at hx
    rw [List.mem_filter] at hx
    exact hmv hx.1
  · intro f l hget hxl
    simp only [CreateDependency.analyze_class_node] at hget
    obtain ⟨n, rfl⟩ := relations_values c _ f l hget
    exact hmv (mem_collect_attrs hxl).2.2

/-- C10 witness: the class writing self.w only through an augmented
assignment has w in no member-variable set and in no reference list, even
though method m reads self.w. -/
theorem nonassigned_attribute_invisible_witness :
    (¬ ∃ n ∈ walk augClass, isSelfAssignTargetIn "w" n = true) ∧
    "w" ∉ CreateDependency.get_member_vars augClass ∧
    "w" ∉ ([] : List String) :=
  ⟨by decide,
   (nonassigned_attribute_invisible augClass "w" (by decide)).1,
   (nonassigned_attribute_invisible augClass "w" (by decide)).2.2 "m" [] rfl⟩
